import Mathlib

/-!
Verification of the real-time chat core of the secure-group-chat frontend.

The development shallowly embeds the message codec (src/util/encrypt.ts),
the socket event handlers and the send path of the chat view
(src/pages/Chat.tsx), and the signed-URL resolver hook (useSignedURLs),
and proves the specified invariants, algebraic laws and frame conditions
about them.  External collaborators (the CryptoJS AES primitive, the
network, React state scoping) are modelled by explicit parameters or by
small executable stand-ins that realise exactly the contract the source
relies on; everything that belongs to the repository itself is translated
statement by statement.
-/

namespace SecureChat

/-! ## Message codec (src/util/encrypt.ts) -/

/-- The symmetric key embedded in the client (encrypt.ts line 4). -/
def AES_KEY : String := "0F7D51C8976E46ED"

/-- Model of the external CryptoJS AES encryption primitive (a library
collaborator, not repository code): an injective, reversible transform of
the character stream.  Each plaintext character is emitted behind a format
marker, so that ciphertext has a recognisable wellformedness structure and
decryption of arbitrary text can genuinely fail, exactly the contract the
repository relies on.  The key is ignored because the source only ever
uses the single constant key. -/
def aesEncryptChars : List Char → List Char
  | [] => []
  | c :: cs => '#' :: c :: aesEncryptChars cs

/-- Model of the external CryptoJS AES decryption primitive: the inverse of
aesEncryptChars, returning none (the modelled thrown exception) on input
that is not wellformed ciphertext. -/
def aesDecryptChars : List Char → Option (List Char)
  | [] => some []
  | '#' :: c :: cs => (aesDecryptChars cs).map (fun l => c :: l)
  | _ => none

/-- CryptoJS.AES.encrypt(text, key).toString() at the String level. -/
def aesEncrypt (_key text : String) : String :=
  String.mk (aesEncryptChars text.data)

/-- CryptoJS.AES.decrypt(c, key) followed by toString(Utf8); none models a
thrown exception (malformed input). -/
def aesDecrypt (_key c : String) : Option String :=
  (aesDecryptChars c.data).map String.mk

/-- The codec tag "ENC:" as a character sequence. -/
def encTag : List Char := ['E', 'N', 'C', ':']

/-- encryptMessage (encrypt.ts lines 23-26): AES-encrypt and prefix the
tag. -/
def encryptMessage (text : String) : String :=
  String.mk (encTag ++ (aesEncrypt AES_KEY text).data)

/-- decryptMessage (encrypt.ts lines 53-66).  Untagged input is returned
unchanged; tagged input is stripped of the tag and decrypted; a decryption
exception or an empty plaintext (the JS falsiness check on line 60) is
caught and the original input is returned. -/
def decryptMessage (cipher : String) : String :=
  if encTag.isPrefixOf cipher.data then
    match aesDecrypt AES_KEY (String.mk (cipher.data.drop 4)) with
    | none => cipher
    | some plaintext => if plaintext.data = [] then cipher else plaintext
  else cipher

theorem strMk_data (s : String) : String.mk s.data = s := rfl

@[simp] theorem data_mk (l : List Char) : (String.mk l).data = l := rfl

theorem aes_roundtrip_chars (l : List Char) :
    aesDecryptChars (aesEncryptChars l) = some l := by
  induction l with
  | nil => rfl
  | cons c cs ih => simp [aesEncryptChars, aesDecryptChars, ih]

theorem encTag_isPrefixOf_append (rest : List Char) :
    encTag.isPrefixOf (encTag ++ rest) = true := by
  rw [List.isPrefixOf_iff_prefix]
  exact List.prefix_append _ _

theorem encTag_append_drop (rest : List Char) :
    (encTag ++ rest).drop 4 = rest := by
  simp [encTag]

/-- C2 counterexample: the round-trip law fails at the empty string.  The
decoder treats an empty recovered plaintext as a decryption failure
(encrypt.ts line 60) and falls back to the tagged input. -/
theorem roundtrip_empty_counterexample :
    decryptMessage (encryptMessage "") ≠ "" ∧
    decryptMessage (encryptMessage "") = encryptMessage "" := by
  constructor
  · decide
  · decide

/-- C2 (amended): for every nonempty representable text x,
decryptMessage (encryptMessage x) = x; for the empty string the decoder
reports failure and returns the tagged ciphertext unchanged. -/
theorem roundtrip_nonempty (x : String) (hx : x ≠ "") :
    decryptMessage (encryptMessage x) = x := by
  rcases x with ⟨l⟩
  have hl : l ≠ [] := by
    intro h
    apply hx
    rw [h]
  simp [decryptMessage, encryptMessage, aesEncrypt, aesDecrypt, data_mk,
    encTag_isPrefixOf_append, encTag_append_drop, aes_roundtrip_chars, hl]

/-- Witness for roundtrip_nonempty: a concrete nonempty message, including
one that itself starts with the tag. -/
theorem roundtrip_nonempty_witness :
    decryptMessage (encryptMessage "Hello") = "Hello" ∧
    decryptMessage (encryptMessage "ENC:sneaky") = "ENC:sneaky" :=
  ⟨roundtrip_nonempty "Hello" (by decide), roundtrip_nonempty "ENC:sneaky" (by decide)⟩

/-- C3: the decoder is fail-open.  Untagged input passes through unchanged,
and tagged input whose recovery fails, either because the ciphertext is
malformed (the modelled exception) or because the recovered plaintext is
empty (the falsiness guard), is returned unchanged. -/
theorem decryptMessage_fail_open (c : String) :
    (encTag.isPrefixOf c.data = false → decryptMessage c = c) ∧
    (aesDecryptChars (c.data.drop 4) = none → decryptMessage c = c) ∧
    (aesDecryptChars (c.data.drop 4) = some [] → decryptMessage c = c) := by
  refine ⟨fun h => ?_, fun h => ?_, fun h => ?_⟩
  · simp [decryptMessage, h]
  · rw [decryptMessage]
    by_cases htag : encTag.isPrefixOf c.data
    · have : aesDecrypt AES_KEY (String.mk (c.data.drop 4)) = none := by
        simp [aesDecrypt, h]
      simp [htag, this]
    · simp [htag]
  · rw [decryptMessage]
    by_cases htag : encTag.isPrefixOf c.data
    · have : aesDecrypt AES_KEY (String.mk (c.data.drop 4)) = some (String.mk []) := by
        simp [aesDecrypt, h]
      simp [htag, this]
    · simp [htag]

/-- Witness for decryptMessage_fail_open: a concrete untagged string passes
through, and a concrete tagged-but-malformed string is returned intact. -/
theorem decryptMessage_fail_open_witness :
    decryptMessage "plain text with no tag" = "plain text with no tag" ∧
    decryptMessage "ENC:x" = "ENC:x" :=
  ⟨(decryptMessage_fail_open "plain text with no tag").1 (by decide),
   (decryptMessage_fail_open "ENC:x").2.1 (by decide)⟩

/-! ## Chat view data model (src/pages/Chat.tsx) -/

/-- The User interface (Chat.tsx lines 17-21). -/
structure User where
  id : String
  name : String
  email : String
deriving DecidableEq, Repr

/-- The Message interface (Chat.tsx lines 7-15).  The handlers guard on
msg.user and msg.readBy being present, so both are optional here. -/
structure Message where
  id : String
  user : Option User
  text : String
  time : String
  mediaUrl : Option String
  mediaType : Option String
  readBy : Option (List String)
deriving DecidableEq, Repr

/-- A message as delivered on the channel: a Message together with the
groupId the server attaches (Chat.tsx line 106). -/
structure WireMessage extends Message where
  groupId : String
deriving DecidableEq, Repr

/-- The file selected for upload (name and MIME type are all the send path
reads). -/
structure MediaFile where
  name : String
  fileType : String
deriving DecidableEq, Repr

/-- The chat view state the claims concern: messages, the processed-id set
(a JS Set, modelled by a list up to membership), the input field, the
selected file and the suggestion list (Chat.tsx lines 68-75). -/
structure ChatState where
  messages : List Message
  processed : List String
  newMessage : String
  file : Option MediaFile
  smartReplies : List String
deriving DecidableEq, Repr

/-! ## Delivery tracker: the "chat message" handler (Chat.tsx 106-117) -/

/-- Embeds the socket.on "chat message" handler: if the event is for the
active group and its id has not been processed, record the id and append
the message with its body decoded; otherwise do nothing.  The smart-reply
fetch the handler also starts is an asynchronous completion and is
modelled with the stale-completion machinery below. -/
def onChatMessage (activeGroup : String) (s : ChatState) (msg : WireMessage) : ChatState :=
  if msg.groupId = activeGroup ∧ msg.id ∉ s.processed then
    { s with
      processed := msg.id :: s.processed,
      messages := s.messages ++ [{ msg.toMessage with text := decryptMessage msg.text }] }
  else s

/-- Folds a sequence of delivered "chat message" events over the state. -/
def ingestAll (g : String) (s : ChatState) : List WireMessage → ChatState
  | [] => s
  | m :: ms => ingestAll g (onChatMessage g s m) ms

/-- Specification-side characterisation: the ids of the events for group g
whose id occurs for the first time (first occurrences kept, in arrival
order, given an initial set of already-seen ids). -/
def dedupFirstIds (g : String) (seen : List String) : List WireMessage → List String
  | [] => []
  | m :: ms =>
    if m.groupId = g ∧ m.id ∉ seen then m.id :: dedupFirstIds g (m.id :: seen) ms
    else dedupFirstIds g seen ms

theorem ingestAll_ids (g : String) (msgs : List WireMessage) :
    ∀ s : ChatState, (ingestAll g s msgs).messages.map (fun m => m.id) =
      s.messages.map (fun m => m.id) ++ dedupFirstIds g s.processed msgs := by
  induction msgs with
  | nil => intro s; simp [ingestAll, dedupFirstIds]
  | cons m ms ih =>
    intro s
    rw [ingestAll, dedupFirstIds, onChatMessage]
    by_cases h : m.groupId = g ∧ m.id ∉ s.processed
    · rw [if_pos h, if_pos h, ih]
      simp
    · rw [if_neg h, if_neg h, ih]

theorem dedupFirstIds_not_mem_seen (g : String) (msgs : List WireMessage) :
    ∀ seen x, x ∈ dedupFirstIds g seen msgs → x ∉ seen := by
  induction msgs with
  | nil => intro seen x hx; simp [dedupFirstIds] at hx
  | cons m ms ih =>
    intro seen x hx hseen
    rw [dedupFirstIds] at hx
    by_cases h : m.groupId = g ∧ m.id ∉ seen
    · rw [if_pos h] at hx
      rcases List.mem_cons.mp hx with hx | hx
      · exact h.2 (hx ▸ hseen)
      · exact ih (m.id :: seen) x hx (List.mem_cons_of_mem _ hseen)
    · rw [if_neg h] at hx
      exact ih seen x hx hseen

theorem dedupFirstIds_nodup (g : String) (msgs : List WireMessage) :
    ∀ seen, (dedupFirstIds g seen msgs).Nodup := by
  induction msgs with
  | nil => intro seen; simp [dedupFirstIds]
  | cons m ms ih =>
    intro seen
    rw [dedupFirstIds]
    by_cases h : m.groupId = g ∧ m.id ∉ seen
    · rw [if_pos h]
      refine List.nodup_cons.mpr ⟨fun hmem => ?_, ih (m.id :: seen)⟩
      exact dedupFirstIds_not_mem_seen g ms (m.id :: seen) m.id hmem (List.mem_cons_self _ _)
    · rw [if_neg h]
      exact ih seen

/-- C1: delivering an already-processed id leaves the state, hence the
log, unchanged; over any event sequence the log extends by exactly the
first occurrences of the active group ids in arrival order; and those
appended ids are pairwise distinct, so each distinct id yields exactly one
entry, at the position of its first ingestion. -/
theorem chat_message_dedup (g : String) (s : ChatState) (msg : WireMessage)
    (msgs : List WireMessage) :
    (msg.id ∈ s.processed → onChatMessage g s msg = s) ∧
    ((ingestAll g s msgs).messages.map (fun m => m.id) =
      s.messages.map (fun m => m.id) ++ dedupFirstIds g s.processed msgs) ∧
    (dedupFirstIds g s.processed msgs).Nodup := by
  refine ⟨fun hmem => ?_, ingestAll_ids g msgs s, dedupFirstIds_nodup g msgs s.processed⟩
  rw [onChatMessage, if_neg]
  intro h
  exact h.2 hmem

/-- The empty initial chat state (Chat.tsx lines 68-75). -/
def initialChatState : ChatState :=
  { messages := [], processed := [], newMessage := "", file := none, smartReplies := [] }

/-- A concrete wire message with id "a" on group "g". -/
def wireA : WireMessage :=
  { id := "a", user := none, text := "ENC:x", time := "t1",
    mediaUrl := none, mediaType := none, readBy := none, groupId := "g" }

/-- A concrete wire message with id "b" on group "g". -/
def wireB : WireMessage :=
  { id := "b", user := none, text := "hello", time := "t2",
    mediaUrl := none, mediaType := none, readBy := none, groupId := "g" }

/-- Witness for chat_message_dedup: redelivery with a processed id is a
no-op, and the arrival order [a, b, a] yields the visible log [a, b]. -/
theorem chat_message_dedup_witness :
    onChatMessage "g" { initialChatState with processed := ["a"] } wireA =
      { initialChatState with processed := ["a"] } ∧
    (ingestAll "g" initialChatState [wireA, wireB, wireA]).messages.map (fun m => m.id) =
      ["a", "b"] :=
  ⟨(chat_message_dedup "g" { initialChatState with processed := ["a"] } wireA []).1
      (by decide),
   ((chat_message_dedup "g" initialChatState wireA [wireA, wireB, wireA]).2.1).trans
      (by decide)⟩

/-! ## Read receipts: the "messageRead" handler (Chat.tsx 126-136) -/

/-- A "messageRead" event as delivered on the channel. -/
structure ReadEvent where
  messageId : String
  user : String
  groupId : String
deriving DecidableEq, Repr

/-- Embeds the socket.on "messageRead" handler: for an event on the active
group, every message whose id matches and whose read-by list (undefined
treated as empty, the optional-chaining on line 130) does not yet contain
the reader gets the reader appended; every other message is unchanged. -/
def onMessageRead (activeGroup : String) (ev : ReadEvent) (msgs : List Message) : List Message :=
  if ev.groupId = activeGroup then
    msgs.map (fun m =>
      if m.id = ev.messageId ∧ ev.user ∉ m.readBy.getD [] then
        { m with readBy := some (m.readBy.getD [] ++ [ev.user]) }
      else m)
  else msgs

/-- Folds a sequence of "messageRead" events over the message list. -/
def applyReadEvents (g : String) (msgs : List Message) : List ReadEvent → List Message
  | [] => msgs
  | e :: es => applyReadEvents g (onMessageRead g e msgs) es

/-- Frame relation for a read-receipt update: every field except read-by is
unchanged, and the read-by set only grows. -/
def ReadFrame (m m' : Message) : Prop :=
  m'.id = m.id ∧ m'.user = m.user ∧ m'.text = m.text ∧ m'.time = m.time ∧
  m'.mediaUrl = m.mediaUrl ∧ m'.mediaType = m.mediaType ∧
  m.readBy.getD [] ⊆ m'.readBy.getD []

theorem readFrame_refl (m : Message) : ReadFrame m m :=
  ⟨rfl, rfl, rfl, rfl, rfl, rfl, fun _ h => h⟩

theorem readFrame_trans {a b c : Message} (h₁ : ReadFrame a b) (h₂ : ReadFrame b c) :
    ReadFrame a c :=
  ⟨h₂.1.trans h₁.1, h₂.2.1.trans h₁.2.1, h₂.2.2.1.trans h₁.2.2.1,
   h₂.2.2.2.1.trans h₁.2.2.2.1, h₂.2.2.2.2.1.trans h₁.2.2.2.2.1,
   h₂.2.2.2.2.2.1.trans h₁.2.2.2.2.2.1,
   fun _ hx => h₂.2.2.2.2.2.2 (h₁.2.2.2.2.2.2 hx)⟩

theorem forall₂_readFrame_trans :
    ∀ {l₁ l₂ l₃ : List Message}, List.Forall₂ ReadFrame l₁ l₂ →
      List.Forall₂ ReadFrame l₂ l₃ → List.Forall₂ ReadFrame l₁ l₃ := by
  intro l₁ l₂ l₃ h₁ h₂
  induction h₁ generalizing l₃ with
  | nil => cases h₂; exact .nil
  | cons hr _ ih =>
    cases h₂ with
    | cons hr2 ht2 => exact .cons (readFrame_trans hr hr2) (ih ht2)

/-- The per-message update of the "messageRead" handler. -/
def readUpdate (ev : ReadEvent) (m : Message) : Message :=
  if m.id = ev.messageId ∧ ev.user ∉ m.readBy.getD [] then
    { m with readBy := some (m.readBy.getD [] ++ [ev.user]) }
  else m

theorem onMessageRead_eq_map (g : String) (ev : ReadEvent) (msgs : List Message) :
    onMessageRead g ev msgs = if ev.groupId = g then msgs.map (readUpdate ev) else msgs := by
  rw [onMessageRead]
  rfl

theorem readUpdate_frame (ev : ReadEvent) (m : Message) : ReadFrame m (readUpdate ev m) := by
  rw [readUpdate]
  by_cases h : m.id = ev.messageId ∧ ev.user ∉ m.readBy.getD []
  · rw [if_pos h]
    exact ⟨rfl, rfl, rfl, rfl, rfl, rfl, by simp⟩
  · rw [if_neg h]
    exact readFrame_refl m

theorem readUpdate_idem (ev : ReadEvent) (m : Message) :
    readUpdate ev (readUpdate ev m) = readUpdate ev m := by
  by_cases h : m.id = ev.messageId ∧ ev.user ∉ m.readBy.getD []
  · have hmem : ev.user ∈ m.readBy.getD [] ++ [ev.user] := by simp
    simp [readUpdate, h, hmem]
  · simp [readUpdate, h]

theorem onMessageRead_frame (g : String) (ev : ReadEvent) (msgs : List Message) :
    List.Forall₂ ReadFrame msgs (onMessageRead g ev msgs) := by
  rw [onMessageRead_eq_map]
  by_cases hg : ev.groupId = g
  · rw [if_pos hg]
    induction msgs with
    | nil => exact .nil
    | cons m ms ih => exact .cons (readUpdate_frame ev m) ih
  · rw [if_neg hg]
    exact List.forall₂_same.mpr fun m _ => readFrame_refl m

theorem applyReadEvents_frame (g : String) (evs : List ReadEvent) :
    ∀ msgs : List Message, List.Forall₂ ReadFrame msgs (applyReadEvents g msgs evs) := by
  induction evs with
  | nil =>
    intro msgs
    exact List.forall₂_same.mpr fun m _ => readFrame_refl m
  | cons e es ih =>
    intro msgs
    rw [applyReadEvents]
    exact forall₂_readFrame_trans (onMessageRead_frame g e msgs) (ih (onMessageRead g e msgs))

/-- C6: the "messageRead" update is idempotent (a second identical event is
absorbed); it is a no-op when the reader is already present for every
matching message; and along any event sequence every message keeps all
other fields and never loses a reader (monotonic read-by). -/
theorem markRead_idempotent_monotonic (g : String) (ev : ReadEvent) (msgs : List Message)
    (evs : List ReadEvent) :
    onMessageRead g ev (onMessageRead g ev msgs) = onMessageRead g ev msgs ∧
    ((∀ m ∈ msgs, m.id = ev.messageId → ev.user ∈ m.readBy.getD []) →
      onMessageRead g ev msgs = msgs) ∧
    List.Forall₂ ReadFrame msgs (applyReadEvents g msgs evs) := by
  refine ⟨?_, fun hall => ?_, applyReadEvents_frame g evs msgs⟩
  · rw [onMessageRead_eq_map, onMessageRead_eq_map]
    by_cases hg : ev.groupId = g
    · rw [if_pos hg, if_pos hg, List.map_map]
      induction msgs with
      | nil => rfl
      | cons m ms ih =>
        simp only [List.map_cons, Function.comp_apply, readUpdate_idem, List.map_map] at ih ⊢
        rw [ih]
    · rw [if_neg hg, if_neg hg]
  · rw [onMessageRead_eq_map]
    by_cases hg : ev.groupId = g
    · rw [if_pos hg]
      induction msgs with
      | nil => rfl
      | cons m ms ih =>
        rw [List.map_cons, ih fun x hx => hall x (List.mem_cons_of_mem _ hx)]
        have hm : readUpdate ev m = m := by
          rw [readUpdate, if_neg]
          intro hc
          exact hc.2 (hall m (List.mem_cons_self _ _) hc.1)
        rw [hm]
    · rw [if_neg hg]

/-- A concrete message already read by alice. -/
def msgReadByAlice : Message :=
  { id := "m1", user := some { id := "oid", name := "bob", email := "b" },
    text := "hi", time := "t", mediaUrl := none, mediaType := none,
    readBy := some ["alice"] }

/-- Witness for markRead_idempotent_monotonic: a repeated event for a
reader already present leaves the concrete message list unchanged. -/
theorem markRead_idempotent_monotonic_witness :
    onMessageRead "g" { messageId := "m1", user := "alice", groupId := "g" }
      [msgReadByAlice] = [msgReadByAlice] :=
  (markRead_idempotent_monotonic "g" { messageId := "m1", user := "alice", groupId := "g" }
    [msgReadByAlice] []).2.1 (by decide)

/-! ## Automatic read receipts: the unread-messages effect (Chat.tsx 147-159) -/

/-- An outbound "read receipt" emission. -/
structure ReadReceipt where
  messageId : String
  user : String
  groupId : String
deriving DecidableEq, Repr

/-- The display name used as the reader identity: user?.name || "anonymous"
(Chat.tsx line 67). -/
def currentUserName (u : User) : String :=
  if u.name = "" then "anonymous" else u.name

/-- The filter of the unread-messages effect (Chat.tsx 148-150): the
message has an author, the author is not the current user, and the current
user is not yet in its read-by list. -/
def shouldEmitReceipt (u : User) (m : Message) : Bool :=
  match m.user with
  | none => false
  | some a => decide (¬ a.id = u.id) && decide (currentUserName u ∉ m.readBy.getD [])

/-- Embeds the unread-messages effect: one "read receipt" emission per
filtered message, naming the current user and the active group. -/
def readReceiptEmissions (g : String) (u : User) (msgs : List Message) : List ReadReceipt :=
  (msgs.filter (shouldEmitReceipt u)).map
    (fun m => { messageId := m.id, user := currentUserName u, groupId := g })

/-- C7: every automatic read receipt originates from a message in the log
that has an author other than the current user and that the current user
has not read; and a message authored by the current user triggers no
emission at all, so the current user never enters the read-by set of their
own message through this path. -/
theorem read_receipt_self_exclusion (g : String) (u : User) (msgs : List Message) :
    (∀ r ∈ readReceiptEmissions g u msgs,
      r.user = currentUserName u ∧ r.groupId = g ∧
      ∃ m ∈ msgs, m.id = r.messageId ∧
        ∃ a, m.user = some a ∧ a.id ≠ u.id ∧ currentUserName u ∉ m.readBy.getD []) ∧
    (∀ (m : Message) (a : User), m.user = some a → a.id = u.id →
      readReceiptEmissions g u [m] = []) := by
  constructor
  · intro r hr
    rw [readReceiptEmissions] at hr
    obtain ⟨m, hmf, rfl⟩ := List.mem_map.mp hr
    obtain ⟨hmem, hp⟩ := List.mem_filter.mp hmf
    refine ⟨rfl, rfl, m, hmem, rfl, ?_⟩
    rw [shouldEmitReceipt] at hp
    cases hma : m.user with
    | none => rw [hma] at hp; exact absurd hp (by simp)
    | some a =>
      rw [hma] at hp
      simp only [Bool.and_eq_true, decide_eq_true_eq] at hp
      exact ⟨a, rfl, hp.1, hp.2⟩
  · intro m a hma hid
    rw [readReceiptEmissions]
    have : shouldEmitReceipt u m = false := by
      rw [shouldEmitReceipt, hma]
      simp [hid]
    simp [List.filter, this]

/-- The concrete current user alice. -/
def uAlice : User := { id := "uid", name := "alice", email := "a" }

/-- A concrete unread message authored by someone else. -/
def msgFromBob : Message :=
  { id := "m2", user := some { id := "oid", name := "bob", email := "b" },
    text := "hi", time := "t", mediaUrl := none, mediaType := none, readBy := none }

/-- A concrete message authored by the current user. -/
def msgSelf : Message :=
  { id := "m3", user := some uAlice, text := "mine", time := "t",
    mediaUrl := none, mediaType := none, readBy := none }

/-- Witness for read_receipt_self_exclusion: a concrete inbound unread
message from another author yields its receipt, and a concrete
self-authored message yields no emission. -/
theorem read_receipt_self_exclusion_witness :
    (∃ m ∈ [msgFromBob],
      m.id = ({ messageId := "m2", user := "alice", groupId := "g" } : ReadReceipt).messageId ∧
      ∃ a, m.user = some a ∧ a.id ≠ uAlice.id ∧
        currentUserName uAlice ∉ m.readBy.getD []) ∧
    readReceiptEmissions "g" uAlice [msgSelf] = [] :=
  ⟨((read_receipt_self_exclusion "g" uAlice [msgFromBob]).1
      { messageId := "m2", user := "alice", groupId := "g" } (by decide)).2.2,
   (read_receipt_self_exclusion "g" uAlice [msgSelf]).2 msgSelf uAlice rfl rfl⟩

/-! ## The send path: sendMessage (Chat.tsx 164-202) -/

/-- The observable side effects of one sendMessage call: media uploads
performed, "chat message" emissions, reconnection attempts
(socket.connect() in the disconnected branch) and whether a local error
was logged (console.error, the local rejection signal). -/
structure SendEffects where
  uploaded : List MediaFile
  emitted : List WireMessage
  reconnectAttempts : Nat
  errorLogged : Bool
deriving DecidableEq, Repr

/-- The absence of side effects. -/
def noSendEffects : SendEffects :=
  { uploaded := [], emitted := [], reconnectAttempts := 0, errorLogged := false }

/-- Embeds the JS String.prototype.trim call on line 165: strip leading
and trailing whitespace from the character sequence. -/
def jsTrim (s : String) : String :=
  String.mk (((s.data.dropWhile Char.isWhitespace).reverse.dropWhile Char.isWhitespace).reverse)

/-- Embeds sendMessage.  External collaborators are passed as data: upload
is the S3 collaborator response (uploadMediaToS3 returns url and type),
freshId the generated id (Date.now plus random suffix, line 175) and
timeStr the formatted time.  Blank input (the trim guard on line 165) does
nothing.  Otherwise the file, if any, is uploaded, the wire message is
built with the encrypted body, and only when the socket is connected is
the plaintext copy appended, the id recorded, the input, file and
suggestions cleared and the message emitted; when disconnected the state
is untouched, an error is logged and a reconnect is triggered. -/
def sendMessage (connected : Bool) (upload : MediaFile → String × String)
    (freshId timeStr : String) (u : User) (g : String)
    (st : ChatState) (messageText : String) : ChatState × SendEffects :=
  if jsTrim messageText = "" then (st, noSendEffects)
  else
    let uploadRes := st.file.map upload
    let msg : WireMessage :=
      { id := freshId,
        user := some { id := u.id, name := u.name, email := u.email },
        text := encryptMessage messageText,
        time := timeStr,
        mediaUrl := uploadRes.map Prod.fst,
        mediaType := uploadRes.map Prod.snd,
        readBy := none,
        groupId := g }
    if connected then
      ({ messages := st.messages ++ [{ msg.toMessage with text := messageText }],
         processed := freshId :: st.processed,
         newMessage := "",
         file := none,
         smartReplies := [] },
       { uploaded := st.file.toList, emitted := [msg],
         reconnectAttempts := 0, errorLogged := false })
    else
      (st, { uploaded := st.file.toList, emitted := [],
             reconnectAttempts := 1, errorLogged := true })

/-- C8: a send attempted with non-blank text while disconnected is
rejected locally: the whole component state (message log, processed-id
set, input field, attachment, suggestion list) is unchanged, nothing is
emitted or queued, exactly one reconnection is triggered and the rejection
is logged. -/
theorem sendMessage_disconnected_rejected (upload : MediaFile → String × String)
    (freshId timeStr : String) (u : User) (g : String)
    (st : ChatState) (text : String) (hne : jsTrim text ≠ "") :
    (sendMessage false upload freshId timeStr u g st text).1 = st ∧
    (sendMessage false upload freshId timeStr u g st text).2.emitted = [] ∧
    (sendMessage false upload freshId timeStr u g st text).2.reconnectAttempts = 1 ∧
    (sendMessage false upload freshId timeStr u g st text).2.errorLogged = true := by
  rw [sendMessage, if_neg hne]
  exact ⟨rfl, rfl, rfl, rfl⟩

/-- Witness for sendMessage_disconnected_rejected at a concrete state and
text. -/
theorem sendMessage_disconnected_rejected_witness :
    (sendMessage false (fun f => (f.name, f.fileType)) "id1" "t" uAlice "g"
        { initialChatState with newMessage := "hi there" } "hi there").1 =
      { initialChatState with newMessage := "hi there" } ∧
    (sendMessage false (fun f => (f.name, f.fileType)) "id1" "t" uAlice "g"
        { initialChatState with newMessage := "hi there" } "hi there").2.emitted = [] ∧
    (sendMessage false (fun f => (f.name, f.fileType)) "id1" "t" uAlice "g"
        { initialChatState with newMessage := "hi there" } "hi there").2.reconnectAttempts = 1 ∧
    (sendMessage false (fun f => (f.name, f.fileType)) "id1" "t" uAlice "g"
        { initialChatState with newMessage := "hi there" } "hi there").2.errorLogged = true :=
  sendMessage_disconnected_rejected (fun f => (f.name, f.fileType)) "id1" "t" uAlice "g"
    { initialChatState with newMessage := "hi there" } "hi there" (by decide)

/-- C10: blank input (empty or whitespace-only, so that trim yields the
empty string) does nothing at all: no emission, no upload, no reconnect,
no log, and the state is returned exactly as it was. -/
theorem sendMessage_blank_noop (connected : Bool) (upload : MediaFile → String × String)
    (freshId timeStr : String) (u : User) (g : String)
    (st : ChatState) (text : String) (hbl : jsTrim text = "") :
    sendMessage connected upload freshId timeStr u g st text = (st, noSendEffects) := by
  rw [sendMessage, if_pos hbl]

/-- Witness for sendMessage_blank_noop: a whitespace-only input at a
concrete state, with a file selected, still does nothing. -/
theorem sendMessage_blank_noop_witness :
    sendMessage true (fun f => (f.name, f.fileType)) "id1" "t" uAlice "g"
      { initialChatState with file := some { name := "a.png", fileType := "image/png" } }
      "   " =
    ({ initialChatState with file := some { name := "a.png", fileType := "image/png" } },
      noSendEffects) :=
  sendMessage_blank_noop true (fun f => (f.name, f.fileType)) "id1" "t" uAlice "g"
    { initialChatState with file := some { name := "a.png", fileType := "image/png" } }
    "   " (by decide)

/-! ## Typing indicator: the "user typing" handler (Chat.tsx 119-124)

The handler sets typingUser and schedules an unconditional clear 3000 ms
later; it never cancels a previously scheduled clear.  The event-loop
semantics is modelled by collecting, per received signal for the active
group, a set action at the arrival time and a clear action at arrival time
plus 3000, and folding all actions due by the query time in time order. -/

/-- The fixed auto-clear delay (Chat.tsx line 122). -/
def TYPING_TIMEOUT_MS : Nat := 3000

/-- A received "user typing" signal with its arrival time. -/
structure TypingSignal where
  time : Nat
  user : String
  groupId : String
deriving DecidableEq, Repr

/-- The timeline of state actions the handler produces: for each signal on
the active group, setTypingUser(user) at its arrival time and the
scheduled setTypingUser("") at arrival plus 3000 (some u is a set, none is
a clear).  Signals for other groups produce nothing. -/
def typingTimeline (g : String) : List TypingSignal → List (Nat × Option String)
  | [] => []
  | s :: ss =>
    if s.groupId = g then
      (s.time, some s.user) :: (s.time + TYPING_TIMEOUT_MS, none) :: typingTimeline g ss
    else typingTimeline g ss

/-- Insert an action into a time-sorted action list (an action with an
equal time goes after the ones already there). -/
def insertTimed (a : Nat × Option String) : List (Nat × Option String) → List (Nat × Option String)
  | [] => [a]
  | b :: bs => if a.1 < b.1 then a :: b :: bs else b :: insertTimed a bs

/-- Time-sort an action list. -/
def sortTimed : List (Nat × Option String) → List (Nat × Option String)
  | [] => []
  | a :: rest => insertTimed a (sortTimed rest)

/-- The typingUser state visible at time t: all actions due by t, applied
in time order to the initially empty value (the render guard on line 337
shows the indicator exactly when this is nonempty). -/
def typingUserAt (g : String) (sigs : List TypingSignal) (t : Nat) : String :=
  ((sortTimed ((typingTimeline g sigs).filter (fun a => decide (a.1 ≤ t)))).foldl
    (fun _ a => a.2.getD "") "")

/-- C4 counterexample: signals from alice at 0 ms and at 2000 ms (a refresh
before the 3000 ms expiry).  The claim says visibility extends to 5000 ms,
but at 3500 ms the first signal's uncancelled timer has already cleared
the indicator. -/
theorem typing_refresh_counterexample :
    typingUserAt "g"
      [{ time := 0, user := "alice", groupId := "g" },
       { time := 2000, user := "alice", groupId := "g" }] 3500 = "" ∧
    (2000 : Nat) < 0 + TYPING_TIMEOUT_MS ∧
    (3500 : Nat) < 2000 + TYPING_TIMEOUT_MS := by
  refine ⟨?_, by decide, by decide⟩
  decide

/-- C4 (amended): a signal sets the indicator and it auto-clears 3000 ms
later; a refresh before expiry re-sets the text but does not cancel the
first pending clear, so visibility ends 3000 ms after the FIRST signal,
not the refresh. -/
theorem typing_auto_clear_amended (u : String) (t₁ t₂ t : Nat) :
    (t₁ ≤ t → t < t₁ + TYPING_TIMEOUT_MS →
      typingUserAt "g" [{ time := t₁, user := u, groupId := "g" }] t = u) ∧
    (t₁ + TYPING_TIMEOUT_MS ≤ t →
      typingUserAt "g" [{ time := t₁, user := u, groupId := "g" }] t = "") ∧
    (t₁ < t₂ → t₂ < t₁ + TYPING_TIMEOUT_MS → t₂ ≤ t → t < t₁ + TYPING_TIMEOUT_MS →
      typingUserAt "g"
        [{ time := t₁, user := u, groupId := "g" },
         { time := t₂, user := u, groupId := "g" }] t = u) ∧
    (t₁ < t₂ → t₂ < t₁ + TYPING_TIMEOUT_MS → t₁ + TYPING_TIMEOUT_MS ≤ t →
      typingUserAt "g"
        [{ time := t₁, user := u, groupId := "g" },
         { time := t₂, user := u, groupId := "g" }] t = "") := by
  refine ⟨fun h1 h2 => ?_, fun h1 => ?_, fun h1 h2 h3 h4 => ?_, fun h1 h2 h3 => ?_⟩
  · have d1 : decide (t₁ ≤ t) = true := decide_eq_true h1
    have d2 : decide (t₁ + TYPING_TIMEOUT_MS ≤ t) = false := decide_eq_false (by omega)
    simp [typingUserAt, typingTimeline, List.filter, d1, d2, sortTimed, insertTimed]
  · have d1 : decide (t₁ ≤ t) = true := decide_eq_true (by omega)
    have d2 : decide (t₁ + TYPING_TIMEOUT_MS ≤ t) = true := decide_eq_true h1
    have hlt : t₁ < t₁ + TYPING_TIMEOUT_MS := by
      rw [TYPING_TIMEOUT_MS]
      omega
    simp [typingUserAt, typingTimeline, List.filter, d1, d2, sortTimed, insertTimed, hlt]
  · have d1 : decide (t₁ ≤ t) = true := decide_eq_true (by omega)
    have d2 : decide (t₁ + TYPING_TIMEOUT_MS ≤ t) = false := decide_eq_false (by omega)
    have d3 : decide (t₂ ≤ t) = true := decide_eq_true h3
    have d4 : decide (t₂ + TYPING_TIMEOUT_MS ≤ t) = false := decide_eq_false (by omega)
    have hlt : ¬ t₂ < t₁ := by omega
    simp [typingUserAt, typingTimeline, List.filter, d1, d2, d3, d4, sortTimed,
      insertTimed, hlt, h1]
  · have d1 : decide (t₁ ≤ t) = true := decide_eq_true (by omega)
    have d2 : decide (t₁ + TYPING_TIMEOUT_MS ≤ t) = true := decide_eq_true h3
    have d3 : decide (t₂ ≤ t) = true := decide_eq_true (by omega)
    have h12 : ¬ t₂ < t₁ := by omega
    have hf : ¬ t₁ + TYPING_TIMEOUT_MS < t₂ := by omega
    by_cases h5 : t₂ + TYPING_TIMEOUT_MS ≤ t
    · have d4 : decide (t₂ + TYPING_TIMEOUT_MS ≤ t) = true := decide_eq_true h5
      have h2c : t₁ + TYPING_TIMEOUT_MS < t₂ + TYPING_TIMEOUT_MS := by omega
      simp [typingUserAt, typingTimeline, List.filter, d1, d2, d3, d4, sortTimed,
        insertTimed, h12, hf, h1, h2c]
    · have d4 : decide (t₂ + TYPING_TIMEOUT_MS ≤ t) = false := decide_eq_false h5
      simp [typingUserAt, typingTimeline, List.filter, d1, d2, d3, d4, sortTimed,
        insertTimed, h12, hf, h1]

/-- Witness for typing_auto_clear_amended: concrete times exercising all
four cases. -/
theorem typing_auto_clear_amended_witness :
    typingUserAt "g" [{ time := 0, user := "alice", groupId := "g" }] 1000 = "alice" ∧
    typingUserAt "g" [{ time := 0, user := "alice", groupId := "g" }] 3000 = "" ∧
    typingUserAt "g"
      [{ time := 0, user := "alice", groupId := "g" },
       { time := 2000, user := "alice", groupId := "g" }] 2500 = "alice" ∧
    typingUserAt "g"
      [{ time := 0, user := "alice", groupId := "g" },
       { time := 2000, user := "alice", groupId := "g" }] 4000 = "" :=
  ⟨(typing_auto_clear_amended "alice" 0 1 1000).1 (by omega) (by decide),
   (typing_auto_clear_amended "alice" 0 1 3000).2.1 (by decide),
   (typing_auto_clear_amended "alice" 0 2000 2500).2.2.1 (by decide) (by decide)
     (by decide) (by decide),
   (typing_auto_clear_amended "alice" 0 2000 4000).2.2.2 (by decide) (by decide)
     (by decide)⟩

/-! ## Media link resolver: useSignedURLs (src/hooks/useSignedURLs.ts) -/

/-- JS String.prototype.split("/") on the character sequence: splits at
every slash, keeping empty segments (so a URL "https://host/key" yields
four parts). -/
def splitSlash : List Char → List (List Char)
  | [] => [[]]
  | c :: cs =>
    if c = '/' then [] :: splitSlash cs
    else
      match splitSlash cs with
      | [] => [[c]]
      | s :: ss => (c :: s) :: ss

/-- JS Array.prototype.join("/"). -/
def joinSlash : List (List Char) → List Char
  | [] => []
  | [s] => s
  | s :: ss => s ++ '/' :: joinSlash ss

/-- The key derivation of the hook (urlParts.slice(3).join("/"), removing
scheme, empty authority segment and host). -/
def deriveKey (mediaUrl : String) : String :=
  String.mk (joinSlash ((splitSlash mediaUrl.data).drop 3))

/-- The outcome of one presigned-download-url request (the external
signing collaborator): the fetch/json chain either throws or yields a
response whose signedUrl field may be absent. -/
inductive FetchOutcome where
  | throws
  | ok (signedUrl : Option String)
deriving DecidableEq, Repr

/-- Embeds fetchSignedUrls of the hook: iterate the media references in
order, skipping absent and empty ones (the JS truthiness guard); for each
remaining reference await the signing request for its derived key and
record the pair.  A throwing request propagates out of the async function,
so nothing after it runs and setSignedUrls is never called: that aborted
run is the none result.  A completed run is the finished pair list, in
reference order, where a response without a signedUrl records a valueless
entry (the JS undefined property). -/
def fetchSignedUrls (resolve : String → FetchOutcome) :
    List (Option String) → Option (List (String × Option String))
  | [] => some []
  | none :: rest => fetchSignedUrls resolve rest
  | some u :: rest =>
    if u = "" then fetchSignedUrls resolve rest
    else
      match resolve (deriveKey u) with
      | .throws => none
      | .ok su => (fetchSignedUrls resolve rest).map (fun m => (u, su) :: m)

/-- setSignedUrls semantics: a completed run replaces the whole mapping; an
aborted run never reaches setSignedUrls, so the previous mapping stays. -/
def applySignedUrls (prev : List (String × Option String)) :
    Option (List (String × Option String)) → List (String × Option String)
  | none => prev
  | some m => m

/-- The entry a completed run records for one reference. -/
def outcomeUrl : FetchOutcome → Option String
  | .throws => none
  | .ok su => su

/-- The concrete resolver of the C9 counterexample: the request for key k1
throws, every other request succeeds. -/
def resolveCE : String → FetchOutcome :=
  fun k => if k = "k1" then .throws else .ok (some "signed2")

/-- C9 counterexample: two present references whose keys are k1 and k2;
k1's request throws while k2's would succeed.  Per the claim k2 should
appear in a freshly rebuilt map that replaces the old one; instead the
whole rebuild aborts and the previous map survives untouched, with no
entry for k2 anywhere. -/
theorem signed_urls_abort_counterexample :
    resolveCE (deriveKey "https://bucket.example.com/k2") = .ok (some "signed2") ∧
    fetchSignedUrls resolveCE
      [some "https://bucket.example.com/k1", some "https://bucket.example.com/k2"] = none ∧
    applySignedUrls [("old", some "stale")]
      (fetchSignedUrls resolveCE
        [some "https://bucket.example.com/k1", some "https://bucket.example.com/k2"]) =
      [("old", some "stale")] := by
  refine ⟨by decide, by decide, by decide⟩

/-- C9 (amended): when no request of the cycle throws, the mapping is
rebuilt from scratch in reference order, covers exactly the present
nonempty references, and replaces the previous mapping wholesale; but the
per-entry best-effort reading fails: any single throwing request aborts
the entire rebuild, nothing is replaced and the previous mapping is kept,
so the other references do not receive their resolved URLs that cycle. -/
theorem fetch_signed_urls_amended (resolve : String → FetchOutcome)
    (urls : List (Option String)) (prev m : List (String × Option String)) :
    ((∀ u : String, some u ∈ urls → u ≠ "" → resolve (deriveKey u) ≠ .throws) →
      fetchSignedUrls resolve urls =
        some (urls.filterMap (fun o => o.bind (fun u =>
          if u = "" then none else some (u, outcomeUrl (resolve (deriveKey u))))))) ∧
    ((∃ u : String, some u ∈ urls ∧ u ≠ "" ∧ resolve (deriveKey u) = .throws) →
      fetchSignedUrls resolve urls = none) ∧
    (applySignedUrls prev none = prev) ∧
    (applySignedUrls prev (some m) = m) := by
  refine ⟨?_, ?_, rfl, rfl⟩
  · induction urls with
    | nil => intro _; rfl
    | cons o rest ih =>
      intro hall
      have hrest : ∀ u : String, some u ∈ rest → u ≠ "" → resolve (deriveKey u) ≠ .throws :=
        fun u hu hne => hall u (List.mem_cons_of_mem _ hu) hne
      cases o with
      | none => simp [fetchSignedUrls, ih hrest]
      | some u =>
        by_cases hu : u = ""
        · simp [fetchSignedUrls, hu, ih hrest]
        · have hnt : resolve (deriveKey u) ≠ .throws :=
            hall u (List.mem_cons_self _ _) hu
          cases hres : resolve (deriveKey u) with
          | throws => exact absurd hres hnt
          | ok su =>
            simp [fetchSignedUrls, hu, hres, ih hrest, outcomeUrl]
  · induction urls with
    | nil =>
      intro h
      obtain ⟨u, hu, -, -⟩ := h
      exact absurd hu (List.not_mem_nil _)
    | cons o rest ih =>
      intro h
      obtain ⟨u, hu, hne, hth⟩ := h
      cases o with
      | none =>
        have : some u ∈ rest := by
          rcases List.mem_cons.mp hu with h | h
          · exact absurd h (by simp)
          · exact h
        simp [fetchSignedUrls, ih ⟨u, this, hne, hth⟩]
      | some v =>
        by_cases hveq : v = u
        · subst hveq
          simp [fetchSignedUrls, hne, hth]
        · have hurest : some u ∈ rest := by
            rcases List.mem_cons.mp hu with h | h
            · exact absurd (Option.some.inj h) fun he => hveq he.symm
            · exact h
          by_cases hv : v = ""
          · simp [fetchSignedUrls, hv, ih ⟨u, hurest, hne, hth⟩]
          · cases hres : resolve (deriveKey v) with
            | throws => simp [fetchSignedUrls, hv, hres]
            | ok su => simp [fetchSignedUrls, hv, hres, ih ⟨u, hurest, hne, hth⟩]

/-- Witness for fetch_signed_urls_amended: a concrete cycle with an absent
slot, an empty reference and two resolvable references, one of which gets
no URL from the server; and the replacement behaviour at concrete maps. -/
theorem fetch_signed_urls_amended_witness :
    fetchSignedUrls (fun k => if k = "k3" then .ok none else .ok (some "s2"))
      [none, some "", some "https://bucket.example.com/k2",
       some "https://bucket.example.com/k3"] =
      some [("https://bucket.example.com/k2", some "s2"),
            ("https://bucket.example.com/k3", none)] ∧
    applySignedUrls [("old", some "stale")]
      (some [("https://bucket.example.com/k2", some "s2")]) =
      [("https://bucket.example.com/k2", some "s2")] :=
  ⟨((fetch_signed_urls_amended (fun k => if k = "k3" then .ok none else .ok (some "s2"))
      [none, some "", some "https://bucket.example.com/k2",
       some "https://bucket.example.com/k3"] [] []).1 (by
        intro u hu hne
        simp only [List.mem_cons, List.not_mem_nil, or_false] at hu
        rcases hu with h | h | h | h
        · exact absurd h (by simp)
        · exact absurd (Option.some.inj h) hne
        · have he := Option.some.inj h
          subst he
          decide
        · have he := Option.some.inj h
          subst he
          decide)).trans (by decide),
   (fetch_signed_urls_amended (fun k => if k = "k3" then .ok none else .ok (some "s2"))
      [] [("old", some "stale")] [("https://bucket.example.com/k2", some "s2")]).2.2.2⟩

/-! ## Stale async completions across group switches

GroupListWrapper (App.tsx) renders the Chat component only while a group
is active and resets the active group to null before another one can be
entered, so every group switch unmounts the old Chat instance and mounts a
fresh one whose media map and suggestion list start empty.  An in-flight
media-resolution or suggestion completion holds the state setters of the
instance that issued it; per React's component semantics (the external
framework collaborator) a setter of an unmounted instance is dropped.  The
model makes the instance identity explicit. -/

/-- One mounted Chat instance: its mount identity, the group it was
mounted for (the group prop never changes while mounted), and the state
slices that async completions write. -/
structure ChatInstance where
  instId : Nat
  groupId : String
  signedUrls : List (String × Option String)
  smartReplies : List String
deriving DecidableEq, Repr

/-- The client: a mount counter and the at most one mounted Chat instance
(GroupListWrapper renders Chat exactly when a group is active). -/
structure Client where
  nextId : Nat
  mounted : Option ChatInstance
deriving DecidableEq, Repr

/-- An asynchronous completion, bound to the instance whose closures it
captured: a finished signed-URL rebuild (setSignedUrls) or a finished
smart-reply fetch (setSmartReplies). -/
inductive Completed where
  | signed (instId : Nat) (urls : List (String × Option String))
  | replies (instId : Nat) (rs : List String)
deriving DecidableEq, Repr

/-- The instance a completion is bound to. -/
def Completed.boundTo : Completed → Nat
  | .signed i _ => i
  | .replies i _ => i

/-- The setter the completion runs, applied to its own instance: both are
wholesale replacements (setSignedUrls(urls) and setSmartReplies(replies)),
with no staleness check of their own. -/
def applyOwn (inst : ChatInstance) : Completed → ChatInstance
  | .signed _ urls => { inst with signedUrls := urls }
  | .replies _ rs => { inst with smartReplies := rs }

/-- React delivery of a completion: the setter fires only if the instance
that issued it is still the mounted one; otherwise the update is dropped
(setState on an unmounted component is a no-op). -/
def deliverCompleted (c : Client) (comp : Completed) : Client :=
  match c.mounted with
  | none => c
  | some inst =>
    if comp.boundTo = inst.instId then { c with mounted := some (applyOwn inst comp) }
    else c

/-- Deliver a list of completions in arrival order. -/
def deliverAll (c : Client) : List Completed → Client
  | [] => c
  | comp :: comps => deliverAll (deliverCompleted c comp) comps

/-- Entering a group (GroupList onEnterGroup): only possible while no chat
is mounted; the new instance gets a fresh identity and empty media map and
suggestion list. -/
def mountChat (c : Client) (g : String) : Client :=
  match c.mounted with
  | some _ => c
  | none =>
    { nextId := c.nextId + 1,
      mounted := some { instId := c.nextId, groupId := g, signedUrls := [], smartReplies := [] } }

/-- Leaving the chat view (onBack or navigation): the instance is
unmounted and its state discarded. -/
def unmountChat (c : Client) : Client := { c with mounted := none }

theorem applyOwn_instId (inst : ChatInstance) (comp : Completed) :
    (applyOwn inst comp).instId = inst.instId := by
  cases comp <;> rfl

theorem deliverCompleted_some (n : Nat) (inst : ChatInstance) (comp : Completed) :
    deliverCompleted { nextId := n, mounted := some inst } comp =
      if comp.boundTo = inst.instId
      then { nextId := n, mounted := some (applyOwn inst comp) }
      else { nextId := n, mounted := some inst } := rfl

theorem deliverAll_filter (comps : List Completed) :
    ∀ (n : Nat) (inst : ChatInstance),
      deliverAll { nextId := n, mounted := some inst } comps =
        { nextId := n,
          mounted := some ((comps.filter (fun cp => decide (cp.boundTo = inst.instId))).foldl
            applyOwn inst) } := by
  induction comps with
  | nil => intro n inst; rfl
  | cons comp comps ih =>
    intro n inst
    rw [deliverAll, deliverCompleted_some]
    by_cases h : comp.boundTo = inst.instId
    · rw [if_pos h, ih n (applyOwn inst comp)]
      have hfun : (fun cp => decide (cp.boundTo = (applyOwn inst comp).instId)) =
          (fun cp : Completed => decide (cp.boundTo = inst.instId)) := by
        funext cp
        rw [applyOwn_instId]
      have hcons : List.filter (fun cp : Completed => decide (cp.boundTo = inst.instId))
          (comp :: comps) =
          comp :: List.filter (fun cp : Completed => decide (cp.boundTo = inst.instId)) comps := by
        simp [List.filter_cons, h]
      rw [hfun, hcons, List.foldl_cons]
    · rw [if_neg h, ih n inst]
      have hcons : List.filter (fun cp : Completed => decide (cp.boundTo = inst.instId))
          (comp :: comps) =
          List.filter (fun cp : Completed => decide (cp.boundTo = inst.instId)) comps := by
        simp [List.filter_cons, h]
      rw [hcons]

/-- C5: a completion bound to an instance other than the mounted one is
discarded without any state change; after a group switch (unmount of the
old instance, fresh mount for the new group) every completion bound to the
old instance is dropped because fresh mount identities are never reused;
and in general the mounted instance's media map and suggestion list are
produced exclusively by the completions bound to that instance, in order. -/
theorem stale_completion_discarded (c : Client) (inst : ChatInstance) (comp : Completed)
    (n : Nat) (g : String) (comps : List Completed) :
    (c.mounted = some inst → comp.boundTo ≠ inst.instId → deliverCompleted c comp = c) ∧
    (comp.boundTo < n →
      deliverCompleted (mountChat { nextId := n, mounted := none } g) comp =
        mountChat { nextId := n, mounted := none } g) ∧
    (deliverAll { nextId := n, mounted := some inst } comps =
      { nextId := n,
        mounted := some ((comps.filter (fun cp => decide (cp.boundTo = inst.instId))).foldl
          applyOwn inst) }) := by
  refine ⟨fun hm hne => ?_, fun hlt => ?_, deliverAll_filter comps n inst⟩
  · rcases c with ⟨cn, cm⟩
    have hcm : cm = some inst := hm
    rw [hcm, deliverCompleted_some]
    exact if_neg hne
  · have hmnt : mountChat { nextId := n, mounted := none } g =
        { nextId := n + 1,
          mounted := some { instId := n, groupId := g, signedUrls := [], smartReplies := [] } } :=
      rfl
    rw [hmnt, deliverCompleted_some]
    apply if_neg
    show ¬ comp.boundTo = n
    omega

/-- Witness for stale_completion_discarded: the old instance 0 mounted for
group G1 issues a media completion; after switching to group G2 (fresh
instance 1) the stale completion leaves the new instance's empty state
untouched, while the new instance's own completion applies. -/
theorem stale_completion_discarded_witness :
    deliverCompleted
      { nextId := 2,
        mounted := some { instId := 1, groupId := "G2", signedUrls := [], smartReplies := [] } }
      (.signed 0 [("m", some "staleUrl")]) =
      { nextId := 2,
        mounted := some { instId := 1, groupId := "G2", signedUrls := [], smartReplies := [] } } ∧
    deliverAll
      { nextId := 2,
        mounted := some { instId := 1, groupId := "G2", signedUrls := [], smartReplies := [] } }
      [.signed 0 [("m", some "staleUrl")], .signed 1 [("m2", some "freshUrl")]] =
      { nextId := 2,
        mounted := some
          { instId := 1, groupId := "G2",
            signedUrls := [("m2", some "freshUrl")], smartReplies := [] } } :=
  ⟨(stale_completion_discarded
      { nextId := 2,
        mounted := some { instId := 1, groupId := "G2", signedUrls := [], smartReplies := [] } }
      { instId := 1, groupId := "G2", signedUrls := [], smartReplies := [] }
      (.signed 0 [("m", some "staleUrl")]) 2 "G2" []).1 rfl (by decide),
   ((stale_completion_discarded
      { nextId := 2,
        mounted := some { instId := 1, groupId := "G2", signedUrls := [], smartReplies := [] } }
      { instId := 1, groupId := "G2", signedUrls := [], smartReplies := [] }
      (.signed 0 [("m", some "staleUrl")]) 2 "G2"
      [.signed 0 [("m", some "staleUrl")], .signed 1 [("m2", some "freshUrl")]]).2.2).trans
      (by decide)⟩

end SecureChat
